import Mathlib

/-!
Shallow embedding of the burn-simulation core of `src/laser-preview.c`
(canvas extension, diffusion kernel, burn kernel, vector rasterizer and the
word-level G-code state machine), together with theorems settling the
specification claims about it.

Modelling conventions:
* C doubles and floats are modelled as exact rationals (`ℚ`); the claims under
  study are all stated "up to float rounding", i.e. about the ideal real
  arithmetic the C code approximates.
* The canvas storage (`img->area`) is a flat row-major `List ℚ` as in the C
  code, with `none` playing the role of a NULL pointer.
* Allocation never fails in the model, so `extend_img` always returns 1.
* The recursion of `add_to_pixel` and the rasterizer loops are fuel-indexed
  (`none` = ran out of fuel); the C code has no such bound, and the
  termination claim is stated as "some fuel suffices".
* `sqrt` appears in the C code only inside the threshold test
  `pix_energy >= energy_density * (1.0 - sqrt(cell))`.  That comparison is
  modelled by the decidable `threshPass`, which mirrors the real-number
  comparison by sign analysis and squaring (and yields `false` when the cell
  is negative, where C computes a NaN threshold and any `>=` test is false).
-/

namespace LaserPreview

/-- C's round(): round half away from zero. -/
def croundAway (q : ℚ) : ℤ :=
  if q < 0 then -⌊-q + 1/2⌋ else ⌊q + 1/2⌋

/-- Sub-pixel quantization in `burn`: `x = round(x * 16.0) / 16.0`. -/
def quant16 (q : ℚ) : ℚ := (croundAway (q * 16) : ℚ) / 16

/-- C double-to-int conversion: truncation toward zero. -/
def truncQ (q : ℚ) : ℤ := if q < 0 then -⌊-q⌋ else ⌊q⌋

/-- The `struct img` of the source: an inclusive bounding box
`[x0,x1] x [y0,y1]`, the flat row-major cell array (`none` = NULL), and the
material / beam parameters. -/
structure Img where
  x0 : ℤ
  y0 : ℤ
  x1 : ℤ
  y1 : ℤ
  area : Option (List ℚ)
  absorption : ℚ
  absorption_factor : ℚ
  diffusion_lin : ℚ
  diffusion_dia : ℚ
  diffusion : ℚ
  pixel_size : ℚ
  pixel_energy : ℚ
  beam_power : ℚ
  energy_density : ℚ
deriving DecidableEq, Repr

/-- Overwrite `dst[pos .. pos + src.length)` with `src` (one memcpy into the
flat buffer). -/
def writeBlock (dst : List ℚ) (pos : ℕ) (src : List ℚ) : List ℚ :=
  dst.take pos ++ src ++ dst.drop (pos + src.length)

/-- The row-copy loop of `extend_img`: step `k` copies row `k` of the old
area (width `ow`) into the new area (width `nw`) at row `rowOff + k`,
column `colOff`, exactly as
`memcpy(&new_area[(y - ny0)*nw + (img->x0 - nx0)], &img->area[(y - img->y0)*ow], ow * ...)`
does for `y = img->y0 + k`. -/
def copyRows (old : List ℚ) (ow nw colOff rowOff : ℕ) (dst : List ℚ) : ℕ → List ℚ
  | 0 => dst
  | k+1 => writeBlock (copyRows old ow nw colOff rowOff dst k)
      ((rowOff + k) * nw + colOff) ((old.drop (k * ow)).take ow)

/-- Read cell `(x, y)`: `img->area[(y - img->y0) * w + (x - img->x0)]` with
`w = img->x1 + 1 - img->x0` (0 outside the storage / for a NULL area). -/
def getCell (img : Img) (x y : ℤ) : ℚ :=
  match img.area with
  | none => 0
  | some a => a.getD ((y - img.y0) * (img.x1 + 1 - img.x0) + (x - img.x0)).toNat 0

/-- `img->area[(y0 - img->y0) * w + (x0 - img->x0)] += v` (a no-op on a NULL
area, which the modelled flows never reach after initialization). -/
def addCell (img : Img) (x y : ℤ) (v : ℚ) : Img :=
  match img.area with
  | none => img
  | some a =>
    let i := ((y - img.y0) * (img.x1 + 1 - img.x0) + (x - img.x0)).toNat
    { img with area := some (a.set i (a.getD i 0 + v)) }

/-- Total accumulated energy over the canvas storage. -/
def sumArea (img : Img) : ℚ := (img.area.getD []).sum

/-- `extend_img` from the source, lines 137-209.  Swaps inverted
coordinates, takes the union with the current box, returns early if nothing
changes, otherwise reallocates:
* same width and same bottom row: `realloc` keeps the old cells in place and
  the added top rows are zeroed (`memset`); `img->area` is set to NULL so the
  copy loop below is skipped.  (When the old area is NULL, C's
  `realloc(NULL, ..)` leaves the first `oh*nw` cells uninitialized; the model
  uses zeros there — that path is unreachable from `main`'s initialization.)
* otherwise: `calloc` a zeroed buffer and run the row-copy loop when the old
  area is allocated.
Allocation cannot fail in the model, so the result code is always 1. -/
def extend_img (img : Img) (nx0 ny0 nx1 ny1 : ℤ) : Img × ℤ :=
  let sx0 := if nx0 > nx1 then nx1 else nx0
  let sx1 := if nx0 > nx1 then nx0 else nx1
  let sy0 := if ny0 > ny1 then ny1 else ny0
  let sy1 := if ny0 > ny1 then ny0 else ny1
  let ux0 := if sx0 > img.x0 then img.x0 else sx0
  let uy0 := if sy0 > img.y0 then img.y0 else sy0
  let ux1 := if sx1 < img.x1 then img.x1 else sx1
  let uy1 := if sy1 < img.y1 then img.y1 else sy1
  if ux0 = img.x0 ∧ uy0 = img.y0 ∧ ux1 = img.x1 ∧ uy1 = img.y1 then (img, 1)
  else
    let ow := img.x1 + 1 - img.x0
    let oh := img.y1 + 1 - img.y0
    let nw := ux1 + 1 - ux0
    let nh := uy1 + 1 - uy0
    let base : List ℚ :=
      if ow = nw ∧ uy0 = img.y0 then
        match img.area with
        | some a => a ++ List.replicate ((nh - oh) * nw).toNat 0
        | none => List.replicate (nw * nh).toNat 0
      else List.replicate (nw * nh).toNat 0
    let oldArea : Option (List ℚ) :=
      if ow = nw ∧ uy0 = img.y0 then none else img.area
    let newArea : List ℚ :=
      match oldArea with
      | some a =>
        copyRows a ow.toNat nw.toNat (img.x0 - ux0).toNat (img.y0 - uy0).toNat base oh.toNat
      | none => base
    ({ img with x0 := ux0, y0 := uy0, x1 := ux1, y1 := uy1, area := some newArea }, 1)

/-- The conditional extension at the top of `add_to_pixel` (lines 214-224):
grow the box just enough to contain `(x0, y0)` when it lies outside. -/
def growFor (img : Img) (x0 y0 : ℤ) : Img × ℤ :=
  let nx0 := if x0 < img.x0 then x0 else img.x0
  let nx1 := if x0 > img.x1 then x0 else img.x1
  let ny0 := if y0 < img.y0 then y0 else img.y0
  let ny1 := if y0 > img.y1 then y0 else img.y1
  if nx0 ≠ img.x0 ∨ nx1 ≠ img.x1 ∨ ny0 ≠ img.y0 ∨ ny1 ≠ img.y1 then
    extend_img img nx0 ny0 nx1 ny1
  else (img, 1)

/-- The recursive diffusion kernel `add_to_pixel` (lines 212-241), with a
fuel index standing for the unbounded C recursion (`none` = out of fuel).
Deposits `value * diffusion` at `(x0, y0)` (extending the canvas first if
needed; an extension failure in C silently drops the deposit), then, unless
`value < 0.05`, recurses on the 8 neighbors with the linear/diagonal
coefficients, in the source's order. -/
def add_to_pixel : ℕ → Img → ℤ → ℤ → ℚ → Option Img
  | 0, _, _, _, _ => none
  | fuel+1, img, x0, y0, value =>
    let e := growFor img x0 y0
    if e.2 = 0 then some img
    else
      let img1 := addCell e.1 x0 y0 (value * e.1.diffusion)
      if value < 1/20 then some img1
      else
        (add_to_pixel fuel img1 (x0 - 1) (y0 - 1) (value * img1.diffusion_dia * img1.diffusion)).bind fun i2 =>
        (add_to_pixel fuel i2 (x0 + 0) (y0 - 1) (value * i2.diffusion_lin * i2.diffusion)).bind fun i3 =>
        (add_to_pixel fuel i3 (x0 + 1) (y0 - 1) (value * i3.diffusion_dia * i3.diffusion)).bind fun i4 =>
        (add_to_pixel fuel i4 (x0 - 1) (y0 + 0) (value * i4.diffusion_lin * i4.diffusion)).bind fun i5 =>
        (add_to_pixel fuel i5 (x0 + 1) (y0 + 0) (value * i5.diffusion_lin * i5.diffusion)).bind fun i6 =>
        (add_to_pixel fuel i6 (x0 - 1) (y0 + 1) (value * i6.diffusion_dia * i6.diffusion)).bind fun i7 =>
        (add_to_pixel fuel i7 (x0 + 0) (y0 + 1) (value * i7.diffusion_lin * i7.diffusion)).bind fun i8 =>
        add_to_pixel fuel i8 (x0 + 1) (y0 + 1) (value * i8.diffusion_dia * i8.diffusion)

/-- Decides `pix >= e * (1 - sqrt v)`, the marking-threshold test of `burn`
(lines 311-314 and 341-348, with `pix = intensity * img->pixel_energy`,
`e = img->energy_density` and `v` the accumulated cell value).  For `v < 0`
the C `sqrt` yields NaN and the `>=` comparison is false.  For `0 ≤ v` the
real comparison is decided by sign analysis and squaring; see
`threshPass_iff` below for the proof that this matches
`(pix : ℝ) ≥ e * (1 - Real.sqrt v)`. -/
def threshPass (pix e v : ℚ) : Bool :=
  if v < 0 then false
  else if 0 < e then decide (e - pix ≤ 0 ∨ (e - pix)^2 ≤ e^2 * v)
  else if e < 0 then decide (e - pix ≤ 0 ∧ e^2 * v ≤ (e - pix)^2)
  else decide (0 ≤ pix)

/-- The bilinear overlap weights of `burn` (lines 288-294):
`dx = x - (x0 + 0.5)`, `dy = y - (y0 + 0.5)` with `x0 = floor(x)`,
`y0 = floor(y)`, and
`(s00, s01, s10, s11) = (dx(1-dy), (1-dx)(1-dy), dx dy, (1-dx) dy)`. -/
def overlapWeights (x y : ℚ) : ℚ × ℚ × ℚ × ℚ :=
  let x0 : ℤ := ⌊x⌋
  let y0 : ℤ := ⌊y⌋
  let dx : ℚ := x - ((x0 : ℚ) + 1/2)
  let dy : ℚ := y - ((y0 : ℚ) + 1/2)
  (dx * (1 - dy), (1 - dx) * (1 - dy), dx * dy, (1 - dx) * dy)

/-- The burn kernel (lines 246-358).  Quantizes the beam center to 1/16 px,
extends the canvas to cover the 2x2 footprint, weighs the four overlaps by
the state-dependent absorption, computes the four threshold tests from the
pre-deposit canvas, clamps, and deposits through `add_to_pixel` in source
order.  Returns the C result (1 = ok, 0 = extension failure — unreachable in
the model) alongside the new canvas; `none` = out of diffusion fuel. -/
def burn (fuel : ℕ) (img : Img) (x y : ℚ) (intensity : ℚ) : Option (Img × ℤ) :=
  let x := quant16 x
  let y := quant16 y
  let x0 : ℤ := ⌊x⌋
  let x1 : ℤ := x0 + 1
  let y0 : ℤ := ⌊y⌋
  let y1 : ℤ := y0 + 1
  let e := if x0 < img.x0 ∨ x1 > img.x1 ∨ y0 < img.y0 ∨ y1 > img.y1 then
             extend_img img x0 y0 x1 y1
           else (img, 1)
  if e.2 = 0 then some (img, 0)
  else
    let img := e.1
    let s := overlapWeights x y
    let s00 := s.1 * (img.absorption + img.absorption_factor * getCell img x0 y0)
    let s01 := s.2.1 * (img.absorption + img.absorption_factor * getCell img x1 y0)
    let s10 := s.2.2.1 * (img.absorption + img.absorption_factor * getCell img x0 y1)
    let s11 := s.2.2.2 * (img.absorption + img.absorption_factor * getCell img x1 y1)
    let p00 := threshPass (intensity * img.pixel_energy) img.energy_density (getCell img x0 y0)
    let p01 := threshPass (intensity * img.pixel_energy) img.energy_density (getCell img x1 y0)
    let p10 := threshPass (intensity * img.pixel_energy) img.energy_density (getCell img x0 y1)
    let p11 := threshPass (intensity * img.pixel_energy) img.energy_density (getCell img x1 y1)
    let s00 := if img.absorption_factor < 0 ∧ s00 < 0 then 0 else s00
    let s01 := if img.absorption_factor < 0 ∧ s01 < 0 then 0 else s01
    let s10 := if img.absorption_factor < 0 ∧ s10 < 0 then 0 else s10
    let s11 := if img.absorption_factor < 0 ∧ s11 < 0 then 0 else s11
    let s00 := s00 * intensity
    let s01 := s01 * intensity
    let s10 := s10 * intensity
    let s11 := s11 * intensity
    let s00 := if s00 > 1 then 1 else s00
    let s01 := if s01 > 1 then 1 else s01
    let s10 := if s10 > 1 then 1 else s10
    let s11 := if s11 > 1 then 1 else s11
    (if p00 then add_to_pixel fuel img x0 y0 s00 else some img).bind fun i1 =>
    (if p01 then add_to_pixel fuel i1 x1 y0 s01 else some i1).bind fun i2 =>
    (if p10 then add_to_pixel fuel i2 x0 y1 s10 else some i2).bind fun i3 =>
    (if p11 then add_to_pixel fuel i3 x1 y1 s11 else some i3).map fun i4 => (i4, 1)

/-- The X-dominant loop of `draw_vector` (lines 408-414):
`for (x = x0 + 0.5; x < x1 + 0.5; x += 1.0)` with
`y = y0 + 0.5 + (x - x0 + 0.5) * dy / dx`, aborting with return value 0 when
a burn fails.  The extra `ℕ` argument is loop fuel (the C loop is unbounded);
falling out of the loop reaches the end of the non-void C function without a
return statement, modelled as return value `none` (undefined). -/
def burnLoopX (fuel : ℕ) (x0 y0 x1 dy dx intensity : ℚ) : Img → ℚ → ℕ → Option (Img × Option ℤ)
  | _, _, 0 => none
  | img, x, n+1 =>
    if x < x1 + 1/2 then
      match burn fuel img x (y0 + 1/2 + (x - x0 + 1/2) * dy / dx) intensity with
      | none => none
      | some (img, r) =>
        if r = 0 then some (img, some 0)
        else burnLoopX fuel x0 y0 x1 dy dx intensity img (x + 1) n
    else some (img, none)

/-- The Y-dominant loop of `draw_vector` (lines 425-431), mirror image of
`burnLoopX`. -/
def burnLoopY (fuel : ℕ) (x0 y0 y1 dx dy intensity : ℚ) : Img → ℚ → ℕ → Option (Img × Option ℤ)
  | _, _, 0 => none
  | img, y, n+1 =>
    if y < y1 + 1/2 then
      match burn fuel img (x0 + 1/2 + (y - y0 + 1/2) * dx / dy) y intensity with
      | none => none
      | some (img, r) =>
        if r = 0 then some (img, some 0)
        else burnLoopY fuel x0 y0 y1 dx dy intensity img (y + 1) n
    else some (img, none)

/-- `draw_vector` (lines 390-433).  Returns the final canvas together with
the C return value: `some 1` for the explicit zero-length return, `some 0`
when a burn failed, and `none` when control falls off the end of the
non-void function (both dominant-axis loops lack a success return).  The
endpoint swap for a negative dominant delta mirrors the source exactly: it
negates the dominant delta and re-bases the dominant coordinates, but keeps
the original minor-axis start (`y0` resp. `x0`) and the un-negated minor
delta. -/
def draw_vector (fuel : ℕ) (img : Img) (x0 y0 x1 y1 intensity : ℚ) :
    Option (Img × Option ℤ) :=
  let dx := x1 - x0
  let dy := y1 - y0
  if dx = 0 ∧ dy = 0 then some (img, some 1)
  else if |dy| ≤ |dx| then
    let ndx := if dx < 0 then -dx else dx
    let nx0 := if dx < 0 then x1 else x0
    let nx1 := if dx < 0 then nx0 + ndx else x1
    burnLoopX fuel nx0 y0 nx1 dy ndx intensity img (nx0 + 1/2) fuel
  else
    let ndy := if dy < 0 then -dy else dy
    let ny0 := if dy < 0 then y1 else y0
    let ny1 := if dy < 0 then ny0 + ndy else y1
    burnLoopY fuel x0 ny0 ny1 dx ndy intensity img (ny0 + 1/2) fuel

/-- The per-line modal state of `parse_gcode` (lines 440-449). -/
structure PState where
  img : Img
  drawing : Bool
  new_x : ℚ
  new_y : ℚ
  cur_x : ℚ
  cur_y : ℚ
  cur_s : ℤ
deriving DecidableEq, Repr

/-- One word of `parse_gcode`'s inner loop (lines 467-496): `c` is the
upcased leading letter and `val` the `atof` of the remainder. -/
def parse_word (zoom : ℚ) (st : PState) (c : Char) (val : ℚ) : PState :=
  if c = 'G' then
    if val = 0 then { st with drawing := false }
    else if 1 ≤ val ∧ val ≤ 3 then { st with drawing := true }
    else st
  else if c = 'M' then
    if val = 3 ∨ val = 4 then { st with drawing := true, cur_s := 255 }
    else if val = 5 then { st with drawing := false }
    else st
  else if c = 'X' then { st with new_x := ((⌊val * zoom + zoom / 16⌋ : ℤ) : ℚ) }
  else if c = 'Y' then { st with new_y := ((⌊val * zoom + zoom / 16⌋ : ℤ) : ℚ) }
  else if c = 'S' then { st with cur_s := truncQ val }
  else if c = 'F' then
    if 0 < val then
      { st with img := { st.img with
          pixel_energy := st.img.beam_power * st.img.pixel_size * 60 / val } }
    else st
  else st

/-- The `long_options` table (lines 26-37): (name, has_argument, short
letter). -/
def long_options : List (String × Bool × Char) :=
  [("help", false, 'h'), ("diffusion", true, 'd'), ("width", true, 'W'),
   ("height", true, 'H'), ("multiply", true, 'm'), ("output", true, 'o'),
   ("pixel-size", true, 'p'), ("beam-power", true, 'P'),
   ("energy-density", true, 'e')]

/-- The getopt short-option string of `main` (line 552). -/
def optstring : String := "ha:A:d:e:m:o:p:P:W:H:"

/-- The short options recognized by getopt: the letters of `optstring`. -/
def shortOptChars : List Char := optstring.toList.filter (fun c => c ≠ ':')

/-- The option rows printed by `usage()` (lines 514-524), as
(short form, long form) pairs in source order. -/
def usage_options : List (String × String) :=
  [("-h", "--help"), ("-H", "--height"), ("-W", "--width"),
   ("-a", "--absorption"), ("-b", "--beam-power"), ("-e", "--energy-density"),
   ("-A", "--absorption_mul"), ("-d", "--diffusion"), ("-m", "--multiply"),
   ("-o", "--output"), ("-p", "--pixel-size")]

/-- A virgin 5x5 canvas with `absorption_factor = 0`, zero threshold and a
degenerate diffusion kernel (`lin = dia = 0`, `diffusion = 1`, which
satisfies the normalization), used for the rasterizer evaluations. -/
def img0 : Img :=
  { x0 := 0, y0 := 0, x1 := 4, y1 := 4, area := some (List.replicate 25 0),
    absorption := 3/4, absorption_factor := 0, diffusion_lin := 0,
    diffusion_dia := 0, diffusion := 1, pixel_size := 1/10, pixel_energy := 1,
    beam_power := 10, energy_density := 0 }

/-- A virgin 5x5 canvas with a rational diffusion kernel satisfying the
normalization exactly: `lin = 1/4`, `dia = 1/8`,
`diffusion = 1 / (1 + 4/4 + 4/8) = 2/5`. -/
def img2 : Img :=
  { x0 := 0, y0 := 0, x1 := 4, y1 := 4, area := some (List.replicate 25 0),
    absorption := 3/4, absorption_factor := 2, diffusion_lin := 1/4,
    diffusion_dia := 1/8, diffusion := 2/5, pixel_size := 1/10,
    pixel_energy := 1, beam_power := 10, energy_density := 1/200 }

/-- A 2x2 canvas with known cell values, for the extension witnesses. -/
def img5 : Img :=
  { x0 := 0, y0 := 0, x1 := 1, y1 := 1, area := some [1, 2, 3, 4],
    absorption := 0, absorption_factor := 0, diffusion_lin := 0,
    diffusion_dia := 0, diffusion := 0, pixel_size := 0, pixel_energy := 0,
    beam_power := 0, energy_density := 0 }

/-- The all-zero `struct img` of `main` before any initialization
(`memset(&img, 0, sizeof(img))`): empty box at the origin, NULL area. -/
def vimg : Img :=
  { x0 := 0, y0 := 0, x1 := 0, y1 := 0, area := none, absorption := 0,
    absorption_factor := 0, diffusion_lin := 0, diffusion_dia := 0,
    diffusion := 0, pixel_size := 0, pixel_energy := 0, beam_power := 0,
    energy_density := 0 }

/-- Initial modal state of `parse_gcode`. -/
def pst0 : PState :=
  { img := img0, drawing := false, new_x := 0, new_y := 0, cur_x := 0,
    cur_y := 0, cur_s := 0 }

end LaserPreview

namespace LaserPreview

/-! ## Claim C8: bilinear overlap weights -/

/-- Claim C8: in the burn kernel, after 1/16 sub-pixel rounding and with
`x0 = floor x`, `y0 = floor y`, the bilinear overlap weights are
`s00 = dx(1-dy)`, `s01 = (1-dx)(1-dy)`, `s10 = dx dy`, `s11 = (1-dx)dy`
with `dx = x - x0 - 0.5` and `dy = y - y0 - 0.5`, and for every beam center
the four weights sum to 1. -/
theorem c8_overlap_weights_sum (x y : ℚ) :
    (overlapWeights (quant16 x) (quant16 y) =
      (let dx : ℚ := quant16 x - ((⌊quant16 x⌋ : ℤ) : ℚ) - 1/2
       let dy : ℚ := quant16 y - ((⌊quant16 y⌋ : ℤ) : ℚ) - 1/2
       (dx * (1 - dy), (1 - dx) * (1 - dy), dx * dy, (1 - dx) * dy))) ∧
    (overlapWeights (quant16 x) (quant16 y)).1 +
      (overlapWeights (quant16 x) (quant16 y)).2.1 +
      (overlapWeights (quant16 x) (quant16 y)).2.2.1 +
      (overlapWeights (quant16 x) (quant16 y)).2.2.2 = 1 := by
  constructor
  · simp only [overlapWeights, Prod.mk.injEq]
    refine ⟨by ring, by ring, by ring, by ring⟩
  · simp only [overlapWeights]
    ring

/-! ## Claim C1: reversal of a vector is not symmetric -/

/-- Claim C1 (evaluation at the failing input): on the virgin canvas `img0`
with `absorption_factor = 0`, drawing `(0,0) -> (2,1)` deposits at pixel
`(2,1)` while drawing `(2,1) -> (0,0)` leaves `(2,1)` untouched and instead
deposits at `(2,0)`: the endpoint swap keeps the original minor-axis start
and the un-negated minor delta, so the reversed pass traces the reflected
segment and the two final canvases differ. -/
theorem c1_reverse_draw_diverges :
    (draw_vector 9 img0 0 0 2 1 (1/25)).map (fun p => getCell p.1 2 1) = some (3/100) ∧
    (draw_vector 9 img0 2 1 0 0 (1/25)).map (fun p => getCell p.1 2 1) = some 0 ∧
    (draw_vector 9 img0 2 1 0 0 (1/25)).map (fun p => getCell p.1 2 0) = some (3/100) ∧
    (draw_vector 9 img0 0 0 2 1 (1/25)).map Prod.fst ≠
      (draw_vector 9 img0 2 1 0 0 (1/25)).map Prod.fst := by
  with_unfolding_all decide

/-! ## Claim C3: the dominant-axis loops fall off the end of draw_vector -/

/-- Claim C3 (evaluation at the failing input): a one-step horizontal vector
whose burns all succeed runs the X loop to completion and reaches the end of
the non-void function without a return statement (modelled as return value
`none`), whereas the explicit zero-length path returns 1.  The claim's
"every non-error completion returns success" matches the function's own
doc comment but not the code. -/
theorem c3_missing_return_eval :
    (draw_vector 9 img0 0 0 1 0 (1/25)).map Prod.snd = some none ∧
    draw_vector 9 img0 0 0 0 0 (1/25) = some (img0, some 1) := by
  with_unfolding_all decide

/-! ## Claim C10: contained request on a virgin unallocated image -/

/-- Claim C10: on the all-zero image of `main` (bounding box `[0,0]x[0,0]`,
NULL area), `extend_img img 0 0 0 0` hits the containment early-return and
reports success while leaving the image unchanged — in particular the
storage stays unallocated, it is not initialized from the arguments. -/
theorem c10_virgin_contained_extend_noop :
    extend_img vimg 0 0 0 0 = (vimg, 1) ∧ (extend_img vimg 0 0 0 0).1.area = none := by
  with_unfolding_all decide

/-! ## Claim C7: the absorption options have no long form -/

/-- Claim C7 (evaluation): `-a` and `-A` are accepted as short options and
`usage()` documents `--absorption` and `--absorption_mul`, but the
`long_options` table has no entry for either name, so the long spellings are
rejected by getopt. -/
theorem c7_absorption_long_forms_missing :
    ('a' ∈ shortOptChars ∧ 'A' ∈ shortOptChars) ∧
    ("--absorption" ∈ usage_options.map Prod.snd ∧
     "--absorption_mul" ∈ usage_options.map Prod.snd) ∧
    "absorption" ∉ long_options.map (fun o => o.1) ∧
    "absorption_mul" ∉ long_options.map (fun o => o.1) := by
  with_unfolding_all decide

/-! ## Claim C4: M3/M4 overwrite a previously seen S word -/

/-- Claim C4 (counterexample): after the words `S100 M3`, the current
spindle value is 255, not the previously seen 100 — `M3`/`M4` set
`cur_s = 255` unconditionally, with no check for a prior `S` word. -/
theorem c4_m3_overrides_prior_s :
    (parse_word 10 (parse_word 10 pst0 'S' 100) 'M' 3).cur_s = 255 ∧
    (parse_word 10 (parse_word 10 pst0 'S' 100) 'M' 3).cur_s ≠ 100 := by
  with_unfolding_all decide

/-- Claim C4 (amended): an `M3` or `M4` word turns drawing on and
unconditionally sets the spindle value to 255, regardless of the current
state (any previously seen `S` value is overwritten). -/
theorem c4_amended_m3_m4_force_full_power (zoom : ℚ) (st : PState) (v : ℚ)
    (h : v = 3 ∨ v = 4) :
    (parse_word zoom st 'M' v).cur_s = 255 ∧
    (parse_word zoom st 'M' v).drawing = true := by
  rcases h with h | h <;> subst h <;> simp [parse_word]

/-- Witness for the amended claim C4 at a concrete state. -/
theorem c4_amended_m3_m4_force_full_power_witness :
    (parse_word 10 pst0 'M' 4).cur_s = 255 ∧ (parse_word 10 pst0 'M' 4).drawing = true :=
  c4_amended_m3_m4_force_full_power 10 pst0 4 (Or.inr rfl)

/-! ## Claim C2: a sub-cutoff stamp deposits E * diffusion, not E -/

/-- Claim C2 (counterexample): with the exactly normalized kernel of `img2`
(`diffusion * (1 + 4 lin + 4 dia) = 1`), stamping `E = 1/25` (below the 0.05
cutoff) into the virgin canvas deposits a total of `E * diffusion = 2/125`,
which is not `E = 1/25`. -/
theorem c2_small_stamp_not_conserved :
    img2.diffusion * (1 + 4 * img2.diffusion_lin + 4 * img2.diffusion_dia) = 1 ∧
    (add_to_pixel 1 img2 2 2 (1/25)).map sumArea = some (2/125) ∧
    sumArea img2 = 0 ∧ ((2:ℚ)/125) ≠ 1/25 := by
  with_unfolding_all decide

end LaserPreview

namespace LaserPreview

lemma iteSwapMin (a b : ℤ) : (if a > b then b else a) = min a b := by
  split_ifs with h <;> omega

lemma iteSwapMax (a b : ℤ) : (if a > b then a else b) = max a b := by
  split_ifs with h <;> omega

/-- Unfolding of `extend_img` with the swap / union conditionals expressed
through min and max. -/
lemma extend_img_eq (img : Img) (a b c d : ℤ) :
    extend_img img a b c d =
      (if min (min a c) img.x0 = img.x0 ∧ min (min b d) img.y0 = img.y0 ∧
          max img.x1 (max a c) = img.x1 ∧ max img.y1 (max b d) = img.y1 then (img, (1 : ℤ))
       else
        (let ux0 := min (min a c) img.x0
         let uy0 := min (min b d) img.y0
         let ux1 := max img.x1 (max a c)
         let uy1 := max img.y1 (max b d)
         let ow := img.x1 + 1 - img.x0
         let oh := img.y1 + 1 - img.y0
         let nw := ux1 + 1 - ux0
         let nh := uy1 + 1 - uy0
         let newA : List ℚ :=
           match img.area with
           | some l =>
             if ow = nw ∧ uy0 = img.y0 then l ++ List.replicate ((nh - oh) * nw).toNat 0
             else copyRows l ow.toNat nw.toNat (img.x0 - ux0).toNat
                    (img.y0 - uy0).toNat (List.replicate (nw * nh).toNat 0) oh.toNat
           | none =>
             if ow = nw ∧ uy0 = img.y0 then List.replicate (nw * nh).toNat 0
             else List.replicate (nw * nh).toNat 0
         ({ img with x0 := ux0, y0 := uy0, x1 := ux1, y1 := uy1, area := some newA }, (1 : ℤ)))) := by
  unfold extend_img
  simp only [iteSwapMin, iteSwapMax]
  split_ifs with h1 h2 <;> rfl

end LaserPreview

namespace LaserPreview

/-- Claim C6: the box after `extend_img` is exactly the union of the old box
and the (normalized) requested box — inverted coordinates are swapped first,
shrinking is ignored — and when the requested box is already contained the
call succeeds changing nothing. -/
theorem c6_extend_box_union_idempotent (img : Img) (a b c d : ℤ) :
    ((extend_img img a b c d).1.x0 = min (min a c) img.x0 ∧
     (extend_img img a b c d).1.y0 = min (min b d) img.y0 ∧
     (extend_img img a b c d).1.x1 = max (max a c) img.x1 ∧
     (extend_img img a b c d).1.y1 = max (max b d) img.y1 ∧
     (extend_img img a b c d).2 = 1) ∧
    ((img.x0 ≤ min a c ∧ max a c ≤ img.x1 ∧ img.y0 ≤ min b d ∧ max b d ≤ img.y1) →
      extend_img img a b c d = (img, 1)) := by
  rw [extend_img_eq]
  split_ifs with h
  · obtain ⟨h1, h2, h3, h4⟩ := h
    refine ⟨⟨?_, ?_, ?_, ?_, rfl⟩, fun _ => rfl⟩ <;> dsimp only <;> omega
  · refine ⟨⟨?_, ?_, ?_, ?_, rfl⟩, fun hc => absurd (by omega) h⟩ <;> dsimp only <;> omega

/-- Witness for claim C6 at concrete inputs: a growing call on `img5` and a
contained (idempotent) call. -/
theorem c6_extend_box_union_idempotent_witness :
    ((extend_img img5 (-1) 0 2 1).1.x0 = min (min (-1) 2) img5.x0 ∧
     (extend_img img5 (-1) 0 2 1).1.y0 = min (min 0 1) img5.y0 ∧
     (extend_img img5 (-1) 0 2 1).1.x1 = max (max (-1) 2) img5.x1 ∧
     (extend_img img5 (-1) 0 2 1).1.y1 = max (max 0 1) img5.y1 ∧
     (extend_img img5 (-1) 0 2 1).2 = 1) ∧
    extend_img img5 1 1 0 0 = (img5, 1) :=
  ⟨(c6_extend_box_union_idempotent img5 (-1) 0 2 1).1,
   (c6_extend_box_union_idempotent img5 1 1 0 0).2 (by with_unfolding_all decide)⟩

end LaserPreview

namespace LaserPreview

lemma getD_append_left (l₁ l₂ : List ℚ) (i : ℕ) (h : i < l₁.length) :
    (l₁ ++ l₂).getD i 0 = l₁.getD i 0 := by
  simp [List.getD_eq_getElem?_getD, List.getElem?_append_left h]

lemma getD_append_right (l₁ l₂ : List ℚ) (i : ℕ) (h : l₁.length ≤ i) :
    (l₁ ++ l₂).getD i 0 = l₂.getD (i - l₁.length) 0 := by
  simp [List.getD_eq_getElem?_getD, List.getElem?_append_right h]

lemma getD_replicate (n i : ℕ) : (List.replicate n (0:ℚ)).getD i 0 = 0 := by
  rw [List.getD_eq_getElem?_getD, List.getElem?_replicate]
  rcases lt_or_ge i n with h | h
  · rw [if_pos h]
    rfl
  · rw [if_neg (by omega)]
    rfl

lemma getD_take_drop (l : List ℚ) (n m j : ℕ) (h : j < m) :
    ((l.drop n).take m).getD j 0 = l.getD (n + j) 0 := by
  simp [List.getD_eq_getElem?_getD, List.getElem?_take, h, List.getElem?_drop]

lemma writeBlock_length (dst src : List ℚ) (pos : ℕ) (h : pos + src.length ≤ dst.length) :
    (writeBlock dst pos src).length = dst.length := by
  simp [writeBlock]
  omega

lemma writeBlock_getD_lt (dst src : List ℚ) (pos i : ℕ) (h : pos + src.length ≤ dst.length)
    (hi : i < pos) : (writeBlock dst pos src).getD i 0 = dst.getD i 0 := by
  rw [writeBlock, getD_append_left _ _ _ (by simp; omega),
    getD_append_left _ _ _ (by simp; omega)]
  rw [List.getD_eq_getElem?_getD, List.getElem?_take, if_pos hi, ← List.getD_eq_getElem?_getD]

lemma writeBlock_getD_mid (dst src : List ℚ) (pos i : ℕ) (h : pos + src.length ≤ dst.length)
    (h1 : pos ≤ i) (h2 : i < pos + src.length) :
    (writeBlock dst pos src).getD i 0 = src.getD (i - pos) 0 := by
  rw [writeBlock, getD_append_left _ _ _ (by simp; omega),
    getD_append_right _ _ _ (by simp; omega)]
  congr 1
  simp
  omega

lemma writeBlock_getD_ge (dst src : List ℚ) (pos i : ℕ) (h : pos + src.length ≤ dst.length)
    (hi : pos + src.length ≤ i) : (writeBlock dst pos src).getD i 0 = dst.getD i 0 := by
  rw [writeBlock, getD_append_right _ _ _ (by simp; omega)]
  rw [List.getD_eq_getElem?_getD, List.getElem?_drop, ← List.getD_eq_getElem?_getD]
  congr 1
  simp
  omega

end LaserPreview

namespace LaserPreview

lemma copyRows_length (old : List ℚ) (ow nw colOff rowOff : ℕ) (dst : List ℚ) :
    ∀ k : ℕ, colOff + ow ≤ nw → (rowOff + k) * nw ≤ dst.length →
      (copyRows old ow nw colOff rowOff dst k).length = dst.length
  | 0, _, _ => rfl
  | k+1, hw, hlen => by
    have hsucc : (rowOff + (k+1)) * nw = (rowOff + k) * nw + nw := by ring
    have hlen' : (rowOff + k) * nw ≤ dst.length := by omega
    have ih := copyRows_length old ow nw colOff rowOff dst k hw hlen'
    have hsrc : ((old.drop (k * ow)).take ow).length ≤ ow := by simp
    rw [copyRows, writeBlock_length _ _ _ (by rw [ih]; omega), ih]

lemma copyRows_getD (old : List ℚ) (ow nw colOff rowOff : ℕ) (dst : List ℚ) :
    ∀ k : ℕ, colOff + ow ≤ nw → (rowOff + k) * nw ≤ dst.length → k * ow ≤ old.length →
      ∀ r c : ℕ, c < nw →
      (copyRows old ow nw colOff rowOff dst k).getD (r * nw + c) 0 =
        if rowOff ≤ r ∧ r < rowOff + k ∧ colOff ≤ c ∧ c < colOff + ow
        then old.getD ((r - rowOff) * ow + (c - colOff)) 0
        else dst.getD (r * nw + c) 0
  | 0, hw, hlen, hold, r, c, hc => by
    rw [if_neg (by omega)]
    rfl
  | k+1, hw, hlen, hold, r, c, hc => by
    have hsucc : (rowOff + (k+1)) * nw = (rowOff + k) * nw + nw := by ring
    have holdsucc : (k+1) * ow = k * ow + ow := by ring
    have hlen' : (rowOff + k) * nw ≤ dst.length := by omega
    have hold' : k * ow ≤ old.length := by omega
    have ih := copyRows_getD old ow nw colOff rowOff dst k hw hlen' hold' r c hc
    have hcrlen := copyRows_length old ow nw colOff rowOff dst k hw hlen'
    have hsrclen : ((old.drop (k * ow)).take ow).length = ow := by
      simp
      omega
    have hblock : (rowOff + k) * nw + colOff + ((old.drop (k * ow)).take ow).length ≤
        (copyRows old ow nw colOff rowOff dst k).length := by
      rw [hcrlen, hsrclen]
      omega
    rw [copyRows]
    by_cases hin : r = rowOff + k ∧ colOff ≤ c ∧ c < colOff + ow
    · obtain ⟨hr, hc1, hc2⟩ := hin
      subst hr
      rw [writeBlock_getD_mid _ _ _ _ hblock (by omega) (by rw [hsrclen]; omega)]
      have hidx : (rowOff + k) * nw + c - ((rowOff + k) * nw + colOff) = c - colOff := by omega
      rw [hidx, getD_take_drop _ _ _ _ (by omega), if_pos (by omega)]
      congr 1
      have : rowOff + k - rowOff = k := by omega
      rw [this]
    · have hcond : (rowOff ≤ r ∧ r < rowOff + (k+1) ∧ colOff ≤ c ∧ c < colOff + ow) ↔
          (rowOff ≤ r ∧ r < rowOff + k ∧ colOff ≤ c ∧ c < colOff + ow) := by
        constructor
        · rintro ⟨a1, a2, a3, a4⟩
          exact ⟨a1, by omega, a3, a4⟩
        · rintro ⟨a1, a2, a3, a4⟩
          exact ⟨a1, by omega, a3, a4⟩
      rcases Nat.lt_trichotomy r (rowOff + k) with hr | hr | hr
      · -- row below the block: index < pos
        have hmul : (r + 1) * nw ≤ (rowOff + k) * nw := Nat.mul_le_mul_right nw (by omega)
        have hexp : (r + 1) * nw = r * nw + nw := by ring
        rw [writeBlock_getD_lt _ _ _ _ hblock (by omega), ih, if_congr hcond rfl rfl]
      · -- same row, but column outside: either side of the block
        subst hr
        rcases Nat.lt_or_ge c colOff with hcl | hcg
        · rw [writeBlock_getD_lt _ _ _ _ hblock (by omega), ih, if_congr hcond rfl rfl]
        · have hcge : colOff + ow ≤ c := by
            rcases Nat.lt_or_ge c (colOff + ow) with h1 | h1
            · exact absurd ⟨rfl, hcg, h1⟩ hin
            · exact h1
          rw [writeBlock_getD_ge _ _ _ _ hblock (by rw [hsrclen]; omega), ih,
            if_congr hcond rfl rfl]
      · -- row above the block: index ≥ pos + ow
        have hmul : (rowOff + k + 1) * nw ≤ r * nw := Nat.mul_le_mul_right nw (by omega)
        have hexp : (rowOff + k + 1) * nw = (rowOff + k) * nw + nw := by ring
        rw [writeBlock_getD_ge _ _ _ _ hblock (by rw [hsrclen]; omega), ih,
          if_congr hcond rfl rfl]

end LaserPreview

namespace LaserPreview

lemma toNat_mul_add (Y W X : ℤ) (hY : 0 ≤ Y) (hW : 0 ≤ W) (hX : 0 ≤ X) :
    (Y * W + X).toNat = Y.toNat * W.toNat + X.toNat := by
  have h1 : Y * W + X = ((Y.toNat * W.toNat + X.toNat : ℕ) : ℤ) := by
    push_cast
    rw [Int.toNat_of_nonneg hY, Int.toNat_of_nonneg hW, Int.toNat_of_nonneg hX]
  rw [h1, Int.toNat_natCast]

lemma toNat_mul (Y W : ℤ) (hY : 0 ≤ Y) (hW : 0 ≤ W) :
    (Y * W).toNat = Y.toNat * W.toNat := by
  have h := toNat_mul_add Y W 0 hY hW le_rfl
  simpa using h

lemma index_lt (x0 x1 y0 y1 x y : ℤ) (hx0 : x0 ≤ x) (hx : x ≤ x1) (hy0 : y0 ≤ y) (hy : y ≤ y1) :
    (y - y0) * (x1 + 1 - x0) + (x - x0) < (y1 + 1 - y0) * (x1 + 1 - x0) ∧
    0 ≤ (y - y0) * (x1 + 1 - x0) + (x - x0) := by
  have hW : 0 < x1 + 1 - x0 := by omega
  have h1 : (y - y0) * (x1 + 1 - x0) ≤ (y1 - y0) * (x1 + 1 - x0) :=
    mul_le_mul_of_nonneg_right (by omega) (by omega)
  have h2 : (y1 + 1 - y0) * (x1 + 1 - x0) = (y1 - y0) * (x1 + 1 - x0) + (x1 + 1 - x0) := by ring
  have h3 : 0 ≤ (y - y0) * (x1 + 1 - x0) := mul_nonneg (by omega) (by omega)
  constructor <;> omega

end LaserPreview

namespace LaserPreview

/-- Claim C5: after a (always successful) `extend_img`, every cell of the
prior bounding box still holds its prior value at the same logical
coordinates, and every newly added cell reads zero. -/
theorem c5_extend_preserves_cells (img : Img) (a b c d x y : ℤ) (l : List ℚ)
    (harea : img.area = some l)
    (hlen : l.length = ((img.y1 + 1 - img.y0) * (img.x1 + 1 - img.x0)).toNat)
    (hx01 : img.x0 ≤ img.x1) (hy01 : img.y0 ≤ img.y1) :
    (extend_img img a b c d).2 = 1 ∧
    (img.x0 ≤ x → x ≤ img.x1 → img.y0 ≤ y → y ≤ img.y1 →
      getCell (extend_img img a b c d).1 x y = getCell img x y) ∧
    (((extend_img img a b c d).1.x0 ≤ x ∧ x ≤ (extend_img img a b c d).1.x1 ∧
      (extend_img img a b c d).1.y0 ≤ y ∧ y ≤ (extend_img img a b c d).1.y1 ∧
      ¬(img.x0 ≤ x ∧ x ≤ img.x1 ∧ img.y0 ≤ y ∧ y ≤ img.y1)) →
      getCell (extend_img img a b c d).1 x y = 0) := by
  rw [extend_img_eq]
  split_ifs with hcont
  · exact ⟨rfl, fun _ _ _ _ => rfl,
      fun hnew => absurd ⟨hnew.1, hnew.2.1, hnew.2.2.1, hnew.2.2.2.1⟩ hnew.2.2.2.2⟩
  dsimp only
  rw [harea]
  dsimp only
  set ux0 := min (min a c) img.x0 with hux0def
  set uy0 := min (min b d) img.y0 with huy0def
  set ux1 := max img.x1 (max a c) with hux1def
  set uy1 := max img.y1 (max b d) with huy1def
  have hux0 : ux0 ≤ img.x0 := min_le_right _ _
  have huy0 : uy0 ≤ img.y0 := min_le_right _ _
  have hux1 : img.x1 ≤ ux1 := le_max_left _ _
  have huy1 : img.y1 ≤ uy1 := le_max_left _ _
  refine ⟨rfl, ?_, ?_⟩
  all_goals split_ifs with hre
  · -- realloc path, preservation
    intro h1 h2 h3 h4
    obtain ⟨hw, hy0⟩ := hre
    have hxx0 : ux0 = img.x0 := by omega
    have hxx1 : ux1 = img.x1 := by omega
    simp only [getCell, harea]
    rw [hxx0, hy0, hxx1]
    have hidx := index_lt img.x0 img.x1 img.y0 img.y1 x y h1 h2 h3 h4
    rw [getD_append_left]
    rw [hlen]
    omega
  · -- calloc path, preservation
    intro h1 h2 h3 h4
    simp only [getCell, harea]
    have hW : (0:ℤ) < img.x1 + 1 - img.x0 := by omega
    have hNW : (0:ℤ) < ux1 + 1 - ux0 := by omega
    have hidxN := index_lt ux0 ux1 uy0 uy1 x y (by omega) (by omega) (by omega) (by omega)
    have hcast : ((y - uy0) * (ux1 + 1 - ux0) + (x - ux0)).toNat =
        (y - uy0).toNat * (ux1 + 1 - ux0).toNat + (x - ux0).toNat :=
      toNat_mul_add _ _ _ (by omega) (by omega) (by omega)
    rw [hcast]
    have hrep : (List.replicate ((ux1 + 1 - ux0) * (uy1 + 1 - uy0)).toNat (0:ℚ)).length =
        ((ux1 + 1 - ux0) * (uy1 + 1 - uy0)).toNat := by simp
    have hcr := copyRows_getD l (img.x1 + 1 - img.x0).toNat (ux1 + 1 - ux0).toNat
      (img.x0 - ux0).toNat (img.y0 - uy0).toNat
      (List.replicate ((ux1 + 1 - ux0) * (uy1 + 1 - uy0)).toNat 0)
      (img.y1 + 1 - img.y0).toNat
      (by omega)
      (by rw [hrep, toNat_mul (ux1 + 1 - ux0) (uy1 + 1 - uy0) (by omega) (by omega)]
          have h1 : (img.y0 - uy0).toNat + (img.y1 + 1 - img.y0).toNat ≤
              (uy1 + 1 - uy0).toNat := by omega
          calc ((img.y0 - uy0).toNat + (img.y1 + 1 - img.y0).toNat) * (ux1 + 1 - ux0).toNat
              ≤ (uy1 + 1 - uy0).toNat * (ux1 + 1 - ux0).toNat := Nat.mul_le_mul_right _ h1
            _ = (ux1 + 1 - ux0).toNat * (uy1 + 1 - uy0).toNat := Nat.mul_comm _ _)
      (by rw [hlen, ← toNat_mul (img.y1 + 1 - img.y0) (img.x1 + 1 - img.x0) (by omega) (by omega)])
      (y - uy0).toNat (x - ux0).toNat (by omega)
    rw [hcr, if_pos (by omega)]
    have e2 : (y - uy0).toNat - (img.y0 - uy0).toNat = (y - img.y0).toNat := by omega
    have e3 : (x - ux0).toNat - (img.x0 - ux0).toNat = (x - img.x0).toNat := by omega
    rw [e2, e3, ← toNat_mul_add (y - img.y0) (img.x1 + 1 - img.x0) (x - img.x0)
      (by omega) (by omega) (by omega)]
  · -- realloc path, new cells read zero
    intro hd
    obtain ⟨hnx0, hnx1, hny0, hny1, hnold⟩ := hd
    obtain ⟨hw, hy0⟩ := hre
    have hxx0 : ux0 = img.x0 := by omega
    have hxx1 : ux1 = img.x1 := by omega
    simp only [getCell, harea]
    rw [hxx0, hy0, hxx1]
    have hyhi : img.y1 < y := by omega
    have hmono : (img.y1 + 1 - img.y0) * (img.x1 + 1 - img.x0) ≤
        (y - img.y0) * (img.x1 + 1 - img.x0) :=
      mul_le_mul_of_nonneg_right (by omega) (by omega)
    have h3 : 0 ≤ (y - img.y0) * (img.x1 + 1 - img.x0) :=
      mul_nonneg (by omega) (by omega)
    rw [getD_append_right]
    · exact getD_replicate _ _
    · rw [hlen]
      omega
  · -- calloc path, new cells read zero
    intro hd
    obtain ⟨hnx0, hnx1, hny0, hny1, hnold⟩ := hd
    simp only [getCell, harea]
    have hW : (0:ℤ) < img.x1 + 1 - img.x0 := by omega
    have hNW : (0:ℤ) < ux1 + 1 - ux0 := by omega
    have hcast : ((y - uy0) * (ux1 + 1 - ux0) + (x - ux0)).toNat =
        (y - uy0).toNat * (ux1 + 1 - ux0).toNat + (x - ux0).toNat :=
      toNat_mul_add _ _ _ (by omega) (by omega) (by omega)
    rw [hcast]
    have hrep : (List.replicate ((ux1 + 1 - ux0) * (uy1 + 1 - uy0)).toNat (0:ℚ)).length =
        ((ux1 + 1 - ux0) * (uy1 + 1 - uy0)).toNat := by simp
    have hcr := copyRows_getD l (img.x1 + 1 - img.x0).toNat (ux1 + 1 - ux0).toNat
      (img.x0 - ux0).toNat (img.y0 - uy0).toNat
      (List.replicate ((ux1 + 1 - ux0) * (uy1 + 1 - uy0)).toNat 0)
      (img.y1 + 1 - img.y0).toNat
      (by omega)
      (by rw [hrep, toNat_mul (ux1 + 1 - ux0) (uy1 + 1 - uy0) (by omega) (by omega)]
          have h1 : (img.y0 - uy0).toNat + (img.y1 + 1 - img.y0).toNat ≤
              (uy1 + 1 - uy0).toNat := by omega
          calc ((img.y0 - uy0).toNat + (img.y1 + 1 - img.y0).toNat) * (ux1 + 1 - ux0).toNat
              ≤ (uy1 + 1 - uy0).toNat * (ux1 + 1 - ux0).toNat := Nat.mul_le_mul_right _ h1
            _ = (ux1 + 1 - ux0).toNat * (uy1 + 1 - uy0).toNat := Nat.mul_comm _ _)
      (by rw [hlen, ← toNat_mul (img.y1 + 1 - img.y0) (img.x1 + 1 - img.x0) (by omega) (by omega)])
      (y - uy0).toNat (x - ux0).toNat (by omega)
    rw [hcr, if_neg (by omega)]
    exact getD_replicate _ _

end LaserPreview

namespace LaserPreview

/-- Witness for claim C5 at a concrete extension of `img5`: the old cell
`(1,0)` is preserved and the new cell `(-1,1)` reads zero. -/
theorem c5_extend_preserves_cells_witness :
    getCell (extend_img img5 (-1) 0 2 1).1 1 0 = getCell img5 1 0 ∧
    getCell (extend_img img5 (-1) 0 2 1).1 (-1) 1 = 0 :=
  ⟨(c5_extend_preserves_cells img5 (-1) 0 2 1 1 0 [1, 2, 3, 4] rfl
      (by with_unfolding_all decide) (by decide) (by decide)).2.1
      (by decide) (by decide) (by decide) (by decide),
   (c5_extend_preserves_cells img5 (-1) 0 2 1 (-1) 1 [1, 2, 3, 4] rfl
      (by with_unfolding_all decide) (by decide) (by decide)).2.2
      (by with_unfolding_all decide)⟩

lemma sum_set_getD (l : List ℚ) : ∀ i : ℕ, i < l.length → ∀ v : ℚ,
    (l.set i (l.getD i 0 + v)).sum = l.sum + v := by
  induction l with
  | nil =>
    intro i hi
    simp at hi
  | cons a t ih =>
    intro i hi v
    cases i with
    | zero =>
      simp
      ring
    | succ j =>
      simp only [List.set_cons_succ, List.getD_cons_succ, List.sum_cons]
      rw [ih j (by simpa using hi) v]
      ring

lemma sumArea_addCell (img : Img) (x y : ℤ) (v : ℚ) (l : List ℚ) (harea : img.area = some l)
    (hidx : ((y - img.y0) * (img.x1 + 1 - img.x0) + (x - img.x0)).toNat < l.length) :
    sumArea (addCell img x y v) = sumArea img + v := by
  simp only [addCell, harea, sumArea]
  exact sum_set_getD l _ hidx v

lemma growFor_inbox (img : Img) (x y : ℤ) (hx0 : img.x0 ≤ x) (hx1 : x ≤ img.x1)
    (hy0 : img.y0 ≤ y) (hy1 : y ≤ img.y1) : growFor img x y = (img, 1) := by
  simp only [growFor]
  rw [if_neg (by omega)]

/-- Claim C2 (amended): for `E` below the 0.05 recursion cutoff, stamping at
an in-box pixel deposits exactly `E * diffusion` into the canvas in total
(a single cell), not `E`; the normalization only makes the limit of the
untruncated recursion conserve `E`. -/
theorem c2_amended_small_stamp_sum (img : Img) (x y : ℤ) (E : ℚ) (l : List ℚ) (n : ℕ)
    (harea : img.area = some l)
    (hlen : l.length = ((img.y1 + 1 - img.y0) * (img.x1 + 1 - img.x0)).toNat)
    (hx0 : img.x0 ≤ x) (hx1 : x ≤ img.x1) (hy0 : img.y0 ≤ y) (hy1 : y ≤ img.y1)
    (hE : E < 1/20) :
    (add_to_pixel (n+1) img x y E).map sumArea =
      some (sumArea img + E * img.diffusion) := by
  have hidx := index_lt img.x0 img.x1 img.y0 img.y1 x y hx0 hx1 hy0 hy1
  rw [add_to_pixel, growFor_inbox img x y hx0 hx1 hy0 hy1]
  dsimp only
  rw [if_neg (by simp), if_pos hE]
  simp only [Option.map]
  rw [sumArea_addCell img x y (E * img.diffusion) l harea (by rw [hlen]; omega)]

/-- Witness for the amended claim C2 at `img2` and `E = 1/25`. -/
theorem c2_amended_small_stamp_sum_witness :
    (add_to_pixel 1 img2 2 2 (1/25)).map sumArea =
      some (sumArea img2 + (1/25) * img2.diffusion) :=
  c2_amended_small_stamp_sum img2 2 2 (1/25) (List.replicate 25 0) 0 rfl
    (by with_unfolding_all decide) (by decide) (by decide) (by decide) (by decide)
    (by with_unfolding_all decide)

end LaserPreview

namespace LaserPreview

lemma extend_img_snd (img : Img) (a b c d : ℤ) : (extend_img img a b c d).2 = 1 := by
  rw [extend_img_eq]
  split_ifs <;> rfl

lemma extend_img_params (img : Img) (a b c d : ℤ) :
    (extend_img img a b c d).1.diffusion = img.diffusion ∧
    (extend_img img a b c d).1.diffusion_lin = img.diffusion_lin ∧
    (extend_img img a b c d).1.diffusion_dia = img.diffusion_dia := by
  rw [extend_img_eq]
  split_ifs <;> exact ⟨rfl, rfl, rfl⟩

lemma growFor_snd (img : Img) (x y : ℤ) : (growFor img x y).2 = 1 := by
  rw [growFor]
  split_ifs <;> first
    | exact extend_img_snd ..
    | rfl

lemma growFor_params (img : Img) (x y : ℤ) :
    (growFor img x y).1.diffusion = img.diffusion ∧
    (growFor img x y).1.diffusion_lin = img.diffusion_lin ∧
    (growFor img x y).1.diffusion_dia = img.diffusion_dia := by
  rw [growFor]
  split_ifs <;> first
    | exact extend_img_params ..
    | exact ⟨rfl, rfl, rfl⟩

lemma addCell_params (img : Img) (x y : ℤ) (v : ℚ) :
    (addCell img x y v).diffusion = img.diffusion ∧
    (addCell img x y v).diffusion_lin = img.diffusion_lin ∧
    (addCell img x y v).diffusion_dia = img.diffusion_dia := by
  cases h : img.area <;> simp [addCell, h]

lemma add_to_pixel_small (m : ℕ) (img : Img) (x y : ℤ) (v : ℚ) (hv : v < 1/20) :
    add_to_pixel (m+1) img x y v =
      some (addCell (growFor img x y).1 x y (v * (growFor img x y).1.diffusion)) := by
  rw [add_to_pixel]
  dsimp only
  rw [if_neg (by simp [growFor_snd]), if_pos hv]

lemma val_step (v w : ℚ) (n : ℕ) (hw : w < 1/4) (hv0 : 0 < v)
    (hvb : v < (1/20) * 4^(n+1)) : v * w < (1/20) * 4^n := by
  have hp : (0:ℚ) < (1/20) * 4^n := by positivity
  rcases le_or_lt w 0 with hw0 | hw0
  · have h1 : v * w ≤ 0 := mul_nonpos_of_nonneg_of_nonpos hv0.le hw0
    linarith
  · have h1 : v * w < v * (1/4) := mul_lt_mul_of_pos_left hw hv0
    have h2 : ((1:ℚ)/20) * 4^(n+1) = 4 * ((1/20) * 4^n) := by ring
    linarith

lemma add_to_pixel_total : ∀ (n : ℕ) (img : Img) (x y : ℤ) (v : ℚ),
    img.diffusion * img.diffusion_lin < 1/4 →
    img.diffusion * img.diffusion_dia < 1/4 →
    v < (1/20) * 4^n →
    ∃ img2, add_to_pixel (n+1) img x y v = some img2 ∧
      img2.diffusion = img.diffusion ∧ img2.diffusion_lin = img.diffusion_lin ∧
      img2.diffusion_dia = img.diffusion_dia
  | n, img, x, y, v, hlin, hdia, hb => by
    by_cases hv : v < 1/20
    · refine ⟨_, add_to_pixel_small n img x y v hv, ?_⟩
      have h1 := growFor_params img x y
      have h2 := addCell_params (growFor img x y).1 x y (v * (growFor img x y).1.diffusion)
      exact ⟨h2.1.trans h1.1, h2.2.1.trans h1.2.1, h2.2.2.trans h1.2.2⟩
    · match n with
      | 0 =>
        have hb0 : v < 1/20 := by simpa using hb
        exact absurd hb0 hv
      | n+1 =>
        have hv0 : (0:ℚ) < v := by
          have : (0:ℚ) < 1/20 := by norm_num
          linarith [not_lt.mp hv]
        rw [add_to_pixel]
        dsimp only
        rw [if_neg (by simp [growFor_snd]), if_neg hv]
        have hP := growFor_params img x y
        have hQ := addCell_params (growFor img x y).1 x y (v * (growFor img x y).1.diffusion)
        set I := addCell (growFor img x y).1 x y (v * (growFor img x y).1.diffusion) with hIdef
        have hPI : I.diffusion = img.diffusion ∧ I.diffusion_lin = img.diffusion_lin ∧
            I.diffusion_dia = img.diffusion_dia :=
          ⟨hQ.1.trans hP.1, hQ.2.1.trans hP.2.1, hQ.2.2.trans hP.2.2⟩
        have hbd : v * I.diffusion_dia * I.diffusion < (1/20) * 4^n := by
          have e : v * I.diffusion_dia * I.diffusion =
              v * (img.diffusion * img.diffusion_dia) := by
            rw [hPI.1, hPI.2.2]; ring
          rw [e]
          exact val_step v _ n hdia hv0 hb
        obtain ⟨J1, hJ1, hq1⟩ := add_to_pixel_total n I (x - 1) (y - 1)
          (v * I.diffusion_dia * I.diffusion)
          (by rw [hPI.1, hPI.2.1]; exact hlin) (by rw [hPI.1, hPI.2.2]; exact hdia) hbd
        have hp1 : J1.diffusion = img.diffusion ∧ J1.diffusion_lin = img.diffusion_lin ∧
            J1.diffusion_dia = img.diffusion_dia :=
          ⟨hq1.1.trans hPI.1, hq1.2.1.trans hPI.2.1, hq1.2.2.trans hPI.2.2⟩
        rw [hJ1]
        simp only [Option.some_bind]
        have hbl1 : v * J1.diffusion_lin * J1.diffusion < (1/20) * 4^n := by
          have e : v * J1.diffusion_lin * J1.diffusion =
              v * (img.diffusion * img.diffusion_lin) := by
            rw [hp1.1, hp1.2.1]; ring
          rw [e]
          exact val_step v _ n hlin hv0 hb
        obtain ⟨J2, hJ2, hq2⟩ := add_to_pixel_total n J1 (x + 0) (y - 1)
          (v * J1.diffusion_lin * J1.diffusion)
          (by rw [hp1.1, hp1.2.1]; exact hlin) (by rw [hp1.1, hp1.2.2]; exact hdia) hbl1
        have hp2 : J2.diffusion = img.diffusion ∧ J2.diffusion_lin = img.diffusion_lin ∧
            J2.diffusion_dia = img.diffusion_dia :=
          ⟨hq2.1.trans hp1.1, hq2.2.1.trans hp1.2.1, hq2.2.2.trans hp1.2.2⟩
        rw [hJ2]
        simp only [Option.some_bind]
        have hbd2 : v * J2.diffusion_dia * J2.diffusion < (1/20) * 4^n := by
          have e : v * J2.diffusion_dia * J2.diffusion =
              v * (img.diffusion * img.diffusion_dia) := by
            rw [hp2.1, hp2.2.2]; ring
          rw [e]
          exact val_step v _ n hdia hv0 hb
        obtain ⟨J3, hJ3, hq3⟩ := add_to_pixel_total n J2 (x + 1) (y - 1)
          (v * J2.diffusion_dia * J2.diffusion)
          (by rw [hp2.1, hp2.2.1]; exact hlin) (by rw [hp2.1, hp2.2.2]; exact hdia) hbd2
        have hp3 : J3.diffusion = img.diffusion ∧ J3.diffusion_lin = img.diffusion_lin ∧
            J3.diffusion_dia = img.diffusion_dia :=
          ⟨hq3.1.trans hp2.1, hq3.2.1.trans hp2.2.1, hq3.2.2.trans hp2.2.2⟩
        rw [hJ3]
        simp only [Option.some_bind]
        have hbl3 : v * J3.diffusion_lin * J3.diffusion < (1/20) * 4^n := by
          have e : v * J3.diffusion_lin * J3.diffusion =
              v * (img.diffusion * img.diffusion_lin) := by
            rw [hp3.1, hp3.2.1]; ring
          rw [e]
          exact val_step v _ n hlin hv0 hb
        obtain ⟨J4, hJ4, hq4⟩ := add_to_pixel_total n J3 (x - 1) (y + 0)
          (v * J3.diffusion_lin * J3.diffusion)
          (by rw [hp3.1, hp3.2.1]; exact hlin) (by rw [hp3.1, hp3.2.2]; exact hdia) hbl3
        have hp4 : J4.diffusion = img.diffusion ∧ J4.diffusion_lin = img.diffusion_lin ∧
            J4.diffusion_dia = img.diffusion_dia :=
          ⟨hq4.1.trans hp3.1, hq4.2.1.trans hp3.2.1, hq4.2.2.trans hp3.2.2⟩
        rw [hJ4]
        simp only [Option.some_bind]
        have hbl4 : v * J4.diffusion_lin * J4.diffusion < (1/20) * 4^n := by
          have e : v * J4.diffusion_lin * J4.diffusion =
              v * (img.diffusion * img.diffusion_lin) := by
            rw [hp4.1, hp4.2.1]; ring
          rw [e]
          exact val_step v _ n hlin hv0 hb
        obtain ⟨J5, hJ5, hq5⟩ := add_to_pixel_total n J4 (x + 1) (y + 0)
          (v * J4.diffusion_lin * J4.diffusion)
          (by rw [hp4.1, hp4.2.1]; exact hlin) (by rw [hp4.1, hp4.2.2]; exact hdia) hbl4
        have hp5 : J5.diffusion = img.diffusion ∧ J5.diffusion_lin = img.diffusion_lin ∧
            J5.diffusion_dia = img.diffusion_dia :=
          ⟨hq5.1.trans hp4.1, hq5.2.1.trans hp4.2.1, hq5.2.2.trans hp4.2.2⟩
        rw [hJ5]
        simp only [Option.some_bind]
        have hbd5 : v * J5.diffusion_dia * J5.diffusion < (1/20) * 4^n := by
          have e : v * J5.diffusion_dia * J5.diffusion =
              v * (img.diffusion * img.diffusion_dia) := by
            rw [hp5.1, hp5.2.2]; ring
          rw [e]
          exact val_step v _ n hdia hv0 hb
        obtain ⟨J6, hJ6, hq6⟩ := add_to_pixel_total n J5 (x - 1) (y + 1)
          (v * J5.diffusion_dia * J5.diffusion)
          (by rw [hp5.1, hp5.2.1]; exact hlin) (by rw [hp5.1, hp5.2.2]; exact hdia) hbd5
        have hp6 : J6.diffusion = img.diffusion ∧ J6.diffusion_lin = img.diffusion_lin ∧
            J6.diffusion_dia = img.diffusion_dia :=
          ⟨hq6.1.trans hp5.1, hq6.2.1.trans hp5.2.1, hq6.2.2.trans hp5.2.2⟩
        rw [hJ6]
        simp only [Option.some_bind]
        have hbl6 : v * J6.diffusion_lin * J6.diffusion < (1/20) * 4^n := by
          have e : v * J6.diffusion_lin * J6.diffusion =
              v * (img.diffusion * img.diffusion_lin) := by
            rw [hp6.1, hp6.2.1]; ring
          rw [e]
          exact val_step v _ n hlin hv0 hb
        obtain ⟨J7, hJ7, hq7⟩ := add_to_pixel_total n J6 (x + 0) (y + 1)
          (v * J6.diffusion_lin * J6.diffusion)
          (by rw [hp6.1, hp6.2.1]; exact hlin) (by rw [hp6.1, hp6.2.2]; exact hdia) hbl6
        have hp7 : J7.diffusion = img.diffusion ∧ J7.diffusion_lin = img.diffusion_lin ∧
            J7.diffusion_dia = img.diffusion_dia :=
          ⟨hq7.1.trans hp6.1, hq7.2.1.trans hp6.2.1, hq7.2.2.trans hp6.2.2⟩
        rw [hJ7]
        simp only [Option.some_bind]
        have hbd7 : v * J7.diffusion_dia * J7.diffusion < (1/20) * 4^n := by
          have e : v * J7.diffusion_dia * J7.diffusion =
              v * (img.diffusion * img.diffusion_dia) := by
            rw [hp7.1, hp7.2.2]; ring
          rw [e]
          exact val_step v _ n hdia hv0 hb
        obtain ⟨J8, hJ8, hq8⟩ := add_to_pixel_total n J7 (x + 1) (y + 1)
          (v * J7.diffusion_dia * J7.diffusion)
          (by rw [hp7.1, hp7.2.1]; exact hlin) (by rw [hp7.1, hp7.2.2]; exact hdia) hbd7
        have hp8 : J8.diffusion = img.diffusion ∧ J8.diffusion_lin = img.diffusion_lin ∧
            J8.diffusion_dia = img.diffusion_dia :=
          ⟨hq8.1.trans hp7.1, hq8.2.1.trans hp7.2.1, hq8.2.2.trans hp7.2.2⟩
        rw [hJ8]
        exact ⟨J8, rfl, hp8⟩

end LaserPreview

namespace LaserPreview

/-- Claim C9: with positive linear and diagonal diffusion coefficients and
the normalization `diffusion * (1 + 4 lin + 4 dia) = 1` computed by `main`
(so in particular for `dia = lin ^ sqrt 2 > 0`), both per-level recursion
multipliers `diffusion * lin` and `diffusion * dia` are strictly below 1/4,
and the `add_to_pixel` recursion terminates on every starting value: some
finite fuel makes the call complete. -/
theorem c9_diffusion_recursion_terminates (img : Img)
    (hlin : 0 < img.diffusion_lin) (hdia : 0 < img.diffusion_dia)
    (hnorm : img.diffusion * (1 + 4 * img.diffusion_lin + 4 * img.diffusion_dia) = 1) :
    img.diffusion * img.diffusion_lin < 1/4 ∧
    img.diffusion * img.diffusion_dia < 1/4 ∧
    ∀ v : ℚ, ∃ fuel : ℕ, ∀ x y : ℤ, (add_to_pixel fuel img x y v).isSome = true := by
  have hS : (0:ℚ) < 1 + 4 * img.diffusion_lin + 4 * img.diffusion_dia := by linarith
  have hd0 : 0 < img.diffusion := by
    rcases lt_trichotomy img.diffusion 0 with h | h | h
    · have : img.diffusion * (1 + 4 * img.diffusion_lin + 4 * img.diffusion_dia) < 0 :=
        mul_neg_of_neg_of_pos h hS
      linarith
    · rw [h, zero_mul] at hnorm
      exact absurd hnorm (by norm_num)
    · exact h
  have h1 : img.diffusion * img.diffusion_lin < 1/4 := by
    nlinarith [mul_pos hd0 hdia, mul_pos hd0 hlin]
  have h2 : img.diffusion * img.diffusion_dia < 1/4 := by
    nlinarith [mul_pos hd0 hdia, mul_pos hd0 hlin]
  refine ⟨h1, h2, fun v => ?_⟩
  obtain ⟨m, hm⟩ := pow_unbounded_of_one_lt (v * 20) (by norm_num : (1:ℚ) < 4)
  refine ⟨m + 1, fun x y => ?_⟩
  have hb : v < (1/20) * 4^m := by linarith
  obtain ⟨img2, heq, _⟩ := add_to_pixel_total m img x y v h1 h2 hb
  rw [heq]
  rfl

/-- Witness for claim C9 at the exactly normalized kernel of `img2`. -/
theorem c9_diffusion_recursion_terminates_witness :
    img2.diffusion * img2.diffusion_lin < 1/4 ∧
    img2.diffusion * img2.diffusion_dia < 1/4 ∧
    ∀ v : ℚ, ∃ fuel : ℕ, ∀ x y : ℤ, (add_to_pixel fuel img2 x y v).isSome = true :=
  c9_diffusion_recursion_terminates img2 (by with_unfolding_all decide)
    (by with_unfolding_all decide) (by with_unfolding_all decide)

end LaserPreview

namespace LaserPreview

/-- Faithfulness of `threshPass`: for a nonnegative cell it decides exactly
the real comparison `energy_density * (1 - sqrt cell) <= pix_energy` that the
C code performs in floating point, and for a negative cell it is false, as
the C comparison against a NaN threshold is. -/
lemma threshPass_iff (pix e v : ℚ) :
    threshPass pix e v = true ↔
      0 ≤ v ∧ (e : ℝ) * (1 - Real.sqrt (v : ℝ)) ≤ (pix : ℝ) := by
  rw [threshPass]
  split_ifs with hv hpos hneg
  · simp only [Bool.false_eq_true, false_iff, not_and]
    intro h0
    exact absurd h0 (not_le.mpr hv)
  · -- 0 < e
    have hv0 : (0:ℚ) ≤ v := not_lt.mp hv
    have hs : (0:ℝ) ≤ Real.sqrt (v:ℝ) := Real.sqrt_nonneg _
    have hs2 : Real.sqrt (v:ℝ) ^ 2 = (v:ℝ) := Real.sq_sqrt (by exact_mod_cast hv0)
    have hepos : (0:ℝ) < (e:ℝ) := by exact_mod_cast hpos
    rw [decide_eq_true_iff]
    constructor
    · rintro (hc | hsq)
      · refine ⟨hv0, ?_⟩
        have hc' : (e:ℝ) - pix ≤ 0 := by exact_mod_cast hc
        nlinarith [mul_nonneg hepos.le hs]
      · refine ⟨hv0, ?_⟩
        have hsq' : ((e:ℝ) - pix)^2 ≤ (e:ℝ)^2 * (v:ℝ) := by exact_mod_cast hsq
        have hkey : (e:ℝ) - pix ≤ e * Real.sqrt (v:ℝ) := by
          by_contra hlt
          push_neg at hlt
          have h1 : (0:ℝ) ≤ e * Real.sqrt (v:ℝ) := mul_nonneg hepos.le hs
          nlinarith
        linarith [hkey]
    · rintro ⟨-, hle⟩
      have hkey : (e:ℝ) - pix ≤ e * Real.sqrt (v:ℝ) := by linarith
      rcases le_or_lt (e - pix) 0 with hc | hc
      · exact Or.inl hc
      · refine Or.inr ?_
        have hc' : (0:ℝ) < (e:ℝ) - pix := by exact_mod_cast hc
        have h2 : ((e:ℝ) - pix)^2 ≤ ((e:ℝ) * Real.sqrt (v:ℝ))^2 := by nlinarith
        have h3 : ((e:ℝ) - pix)^2 ≤ (e:ℝ)^2 * (v:ℝ) := by nlinarith
        exact_mod_cast h3
  · -- e < 0
    have hv0 : (0:ℚ) ≤ v := not_lt.mp hv
    have hs : (0:ℝ) ≤ Real.sqrt (v:ℝ) := Real.sqrt_nonneg _
    have hs2 : Real.sqrt (v:ℝ) ^ 2 = (v:ℝ) := Real.sq_sqrt (by exact_mod_cast hv0)
    have heneg : ((e:ℝ)) < 0 := by exact_mod_cast hneg
    have hes : (e:ℝ) * Real.sqrt (v:ℝ) ≤ 0 := mul_nonpos_of_nonpos_of_nonneg heneg.le hs
    rw [decide_eq_true_iff]
    constructor
    · rintro ⟨hc, hsq⟩
      refine ⟨hv0, ?_⟩
      have hc' : (e:ℝ) - pix ≤ 0 := by exact_mod_cast hc
      have hsq' : (e:ℝ)^2 * (v:ℝ) ≤ ((e:ℝ) - pix)^2 := by exact_mod_cast hsq
      have hkey : (e:ℝ) - pix ≤ e * Real.sqrt (v:ℝ) := by
        by_contra hlt
        push_neg at hlt
        nlinarith
      linarith
    · rintro ⟨-, hle⟩
      have hkey : (e:ℝ) - pix ≤ e * Real.sqrt (v:ℝ) := by linarith
      have hc : (e:ℝ) - pix ≤ 0 := le_trans hkey hes
      constructor
      · exact_mod_cast hc
      · have h2 : (e:ℝ)^2 * (v:ℝ) ≤ ((e:ℝ) - pix)^2 := by nlinarith
        exact_mod_cast h2
  · -- e = 0
    have hv0 : (0:ℚ) ≤ v := not_lt.mp hv
    have he0 : e = 0 := le_antisymm (not_lt.mp hpos) (not_lt.mp hneg)
    subst he0
    rw [decide_eq_true_iff]
    constructor
    · intro h
      refine ⟨hv0, ?_⟩
      push_cast
      simpa using (by exact_mod_cast h : (0:ℝ) ≤ pix)
    · rintro ⟨-, hle⟩
      have : (0:ℝ) ≤ (pix:ℝ) := by
        simpa using hle
      exact_mod_cast this

end LaserPreview
